import Mathlib

/-!
Verification of the `scientific-pydantic` slice/range adapter.

The development shallowly embeds `src/scientific_pydantic/slice.py`
(the `SliceAdapter` configuration, shape dispatch, per-slot coercion,
and serialization) together with the interval syntax codec
(`parse_slice_syntax` / `format_slice_syntax`), which is modelled from
the specification because its source module is not part of the
snapshot.  Python values are modelled by `PyVal` (None, an integer, a
string, or an opaque object), machine-level Python `int` by `Int`.
-/

set_option maxRecDepth 4000

namespace ScientificPydantic

/-! ## Decimal tokens

Python renders integers with `str` and the integer converter accepts an
optional sign followed by decimal digits.  `natStr`/`intStr` model
`str(n)`; `parseNat`/`parseInt` model `int(token)`. -/

/-- The ten decimal digit characters. -/
def digitChar (d : Nat) : Char :=
  match d with
  | 0 => '0' | 1 => '1' | 2 => '2' | 3 => '3' | 4 => '4'
  | 5 => '5' | 6 => '6' | 7 => '7' | 8 => '8' | _ => '9'

/-- Whether `c` is one of `'0'`–`'9'`. -/
def isDigitChar (c : Char) : Bool :=
  48 ≤ c.toNat && c.toNat ≤ 57

/-- Numeric value of a digit character. -/
def charDigit (c : Char) : Nat := c.toNat - 48

/-- Little-endian decimal digits with explicit fuel, so that the kernel
can evaluate concrete instances (Mathlib's `Nat.digits` recurses on a
well-founded measure and does not reduce). -/
def natDigitsFuel : Nat → Nat → List Nat
  | 0, _ => []
  | _ + 1, 0 => []
  | fuel + 1, n + 1 => (n + 1) % 10 :: natDigitsFuel fuel ((n + 1) / 10)

/-- Little-endian decimal digits of a natural number; `[]` for zero. -/
def natDigits (n : Nat) : List Nat := natDigitsFuel n n

theorem natDigitsFuel_eq (fuel : Nat) :
    ∀ n, n ≤ fuel → natDigitsFuel fuel n = Nat.digits 10 n := by
  induction fuel with
  | zero =>
    intro n hn
    interval_cases n
    simp [natDigitsFuel]
  | succ fuel ih =>
    intro n hn
    match n with
    | 0 => simp [natDigitsFuel]
    | m + 1 =>
      rw [natDigitsFuel, Nat.digits_def' (by norm_num : 1 < 10) (Nat.succ_pos m)]
      congr 1
      have hdiv : (m + 1) / 10 ≤ m := by
        have := Nat.div_lt_self (Nat.succ_pos m) (by norm_num : 1 < 10)
        omega
      exact ih _ (by omega)

/-- The fueled digits agree with Mathlib's. -/
theorem natDigits_eq (n : Nat) : natDigits n = Nat.digits 10 n :=
  natDigitsFuel_eq n n (Nat.le_refl n)

/-- Modelled from the spec: Python's `str` on a nonnegative integer
(decimal, no sign, no leading zeros; `"0"` for zero). -/
def natStr (n : Nat) : List Char :=
  if n = 0 then ['0'] else ((natDigits n).map digitChar).reverse

/-- Modelled from the spec: Python's `int(token)` on an unsigned decimal
token: every character a digit, at least one of them. -/
def parseNat (l : List Char) : Option Nat :=
  if l ≠ [] ∧ l.all isDigitChar then
    some (l.foldl (fun a c => a * 10 + charDigit c) 0)
  else
    Option.none

/-- Modelled from the spec: Python's `str` on an integer. -/
def intStr (n : Int) : List Char :=
  if n < 0 then '-' :: natStr n.natAbs else natStr n.toNat

/-- Modelled from the spec: Python's `int(token)` on a signed decimal
token (an optional leading minus sign). -/
def parseInt (l : List Char) : Option Int :=
  match l with
  | [] => Option.none
  | c :: rest =>
    if c = '-' then (parseNat rest).map (fun m => -(Int.ofNat m))
    else (parseNat (c :: rest)).map Int.ofNat

theorem digitChar_isDigit {d : Nat} (hd : d < 10) : isDigitChar (digitChar d) = true := by
  interval_cases d <;> decide

theorem charDigit_digitChar {d : Nat} (hd : d < 10) : charDigit (digitChar d) = d := by
  interval_cases d <;> decide

theorem digitChar_ne_minus {d : Nat} (hd : d < 10) : digitChar d ≠ '-' := by
  interval_cases d <;> decide

/-- Folding the decimal accumulator over the big-endian character form of a
digit list recovers `Nat.ofDigits`. -/
theorem foldl_digitChars (L : List Nat) (hL : ∀ d ∈ L, d < 10) (a : Nat) :
    ((L.map digitChar).reverse.foldl (fun x c => x * 10 + charDigit c) a)
      = a * 10 ^ L.length + Nat.ofDigits 10 L := by
  induction L generalizing a with
  | nil => simp [Nat.ofDigits_nil]
  | cons d L ih =>
    have hd : d < 10 := hL d (List.mem_cons_self d L)
    have hL' : ∀ e ∈ L, e < 10 := fun e he => hL e (List.mem_cons_of_mem d he)
    simp only [List.map_cons, List.reverse_cons, List.foldl_append, List.foldl_cons,
      List.foldl_nil, ih hL' a, Nat.ofDigits_cons, List.length_cons,
      charDigit_digitChar hd]
    ring

theorem natStr_ne_nil (n : Nat) : natStr n ≠ [] := by
  unfold natStr
  split
  · simp
  · rename_i h
    simp [natDigits_eq, List.reverse_eq_nil_iff, Nat.digits_ne_nil_iff_ne_zero, h]

theorem natStr_all_digits (n : Nat) : (natStr n).all isDigitChar = true := by
  unfold natStr
  split
  · decide
  · rw [List.all_eq_true]
    intro c hc
    rw [List.mem_reverse, List.mem_map] at hc
    obtain ⟨d, hd, rfl⟩ := hc
    rw [natDigits_eq] at hd
    exact digitChar_isDigit (Nat.digits_lt_base (by norm_num) hd)

/-- `parseNat` inverts `natStr`. -/
theorem parseNat_natStr (n : Nat) : parseNat (natStr n) = some n := by
  by_cases h : n = 0
  · subst h; decide
  · have hall := natStr_all_digits n
    have hne := natStr_ne_nil n
    unfold parseNat
    rw [if_pos ⟨hne, hall⟩]
    unfold natStr
    rw [if_neg h]
    unfold natStr at hne hall
    rw [if_neg h] at hne hall
    have hlt : ∀ d ∈ natDigits n, d < 10 := by
      intro d hd
      rw [natDigits_eq] at hd
      exact Nat.digits_lt_base (by norm_num) hd
    rw [foldl_digitChars _ hlt 0, natDigits_eq, Nat.ofDigits_digits]
    simp

theorem natStr_head_digit (n : Nat) :
    ∀ c rest, natStr n = c :: rest → isDigitChar c = true := by
  intro c rest h
  have hall := natStr_all_digits n
  rw [h, List.all_cons, Bool.and_eq_true] at hall
  exact hall.1

/-- `parseInt` inverts `intStr`. -/
theorem parseInt_intStr (n : Int) : parseInt (intStr n) = some n := by
  unfold intStr
  split
  · rename_i hneg
    simp only [parseInt, if_pos rfl, if_true, parseNat_natStr, Option.map_some']
    rw [Int.ofNat_eq_natCast]
    congr 1
    omega
  · rename_i hpos
    obtain ⟨c, rest, hc⟩ : ∃ c rest, natStr n.toNat = c :: rest := by
      rcases h : natStr n.toNat with _ | ⟨c, rest⟩
      · exact absurd h (natStr_ne_nil _)
      · exact ⟨c, rest, rfl⟩
    rw [hc]
    have hd := natStr_head_digit n.toNat c rest hc
    have hcne : ¬ c = '-' := by
      intro hEq
      rw [hEq] at hd
      exact absurd hd (by decide)
    simp only [parseInt, if_neg hcne, ← hc, parseNat_natStr, Option.map_some']
    rw [Int.ofNat_eq_natCast]
    congr 1
    omega

/-! ## Splitting on colons and stripping whitespace

`splitCols` models Python's `value.split(":")` on the character list of a
string; `trimChars` models `token.strip()`. -/

/-- The whitespace characters stripped by Python's `str.strip()`. -/
def isSpaceChar (c : Char) : Bool :=
  c = ' ' || c = '\t' || c = '\n' || c = '\r' || c = '\x0b' || c = '\x0c'

/-- `token.strip()`: drop whitespace from both ends. -/
def trimChars (l : List Char) : List Char :=
  ((l.dropWhile isSpaceChar).reverse.dropWhile isSpaceChar).reverse

/-- `value.split(":")`: the (colon count + 1) chunks between colons. -/
def splitCols : List Char → List (List Char)
  | [] => [[]]
  | c :: rest =>
    if c = ':' then [] :: splitCols rest
    else
      match splitCols rest with
      | [] => [[c]]
      | t :: ts => (c :: t) :: ts

theorem splitCols_ne_nil (l : List Char) : splitCols l ≠ [] := by
  induction l with
  | nil => simp [splitCols]
  | cons c rest ih =>
    unfold splitCols
    split
    · simp
    · rcases h : splitCols rest with _ | ⟨t, ts⟩ <;> simp

/-- One chunk more than the number of colons. -/
theorem splitCols_length (l : List Char) :
    (splitCols l).length = l.count ':' + 1 := by
  induction l with
  | nil => simp [splitCols]
  | cons c rest ih =>
    unfold splitCols
    by_cases hc : c = ':'
    · subst hc
      simp [List.count_cons, ih]
    · rw [if_neg hc]
      rcases h : splitCols rest with _ | ⟨t, ts⟩
      · exact absurd h (splitCols_ne_nil rest)
      · rw [h] at ih
        simp only [List.length_cons] at ih ⊢
        rw [List.count_cons]
        simp [hc, ih]

/-- A colon-free list is a single chunk. -/
theorem splitCols_no_colon {l : List Char} (h : ∀ c ∈ l, c ≠ ':') :
    splitCols l = [l] := by
  induction l with
  | nil => rfl
  | cons c rest ih =>
    unfold splitCols
    rw [if_neg (h c (List.mem_cons_self c rest))]
    rw [ih (fun d hd => h d (List.mem_cons_of_mem c hd))]

/-- Splitting separates at the first colon after a colon-free block. -/
theorem splitCols_append {l₁ : List Char} (l₂ : List Char)
    (h : ∀ c ∈ l₁, c ≠ ':') :
    splitCols (l₁ ++ ':' :: l₂) = l₁ :: splitCols l₂ := by
  induction l₁ with
  | nil => simp [splitCols]
  | cons c rest ih =>
    have hc : c ≠ ':' := h c (List.mem_cons_self c rest)
    have hr := ih (fun d hd => h d (List.mem_cons_of_mem c hd))
    simp only [List.cons_append]
    rw [splitCols, if_neg hc, hr]

theorem dropWhile_eq_self_of_all {p : Char → Bool} {l : List Char}
    (h : ∀ c ∈ l, p c = false) : l.dropWhile p = l := by
  cases l with
  | nil => rfl
  | cons c rest => simp [List.dropWhile_cons, h c (List.mem_cons_self c rest)]

/-- Stripping a whitespace-free token is the identity. -/
theorem trimChars_eq_self {l : List Char} (h : ∀ c ∈ l, isSpaceChar c = false) :
    trimChars l = l := by
  unfold trimChars
  rw [dropWhile_eq_self_of_all h,
    dropWhile_eq_self_of_all (fun c hc => h c (List.mem_reverse.mp hc)),
    List.reverse_reverse]

/-! ## Error taxonomy (spec §7)

All of these surface as one validation failure at the adapter boundary;
the constructors keep the taxonomy apart: `synErr` for malformed grammar
strings, `shapeErr` for unsupported input structure, `compErr` for a slot
rejected by its coercion capability, `valErr` for the remaining
`ValueError`s of the source (tuple unpacking). -/

inductive SliceErr where
  | synErr (msg : String)
  | shapeErr (msg : String)
  | compErr (slot msg : String)
  | valErr (msg : String)
deriving DecidableEq, Repr

/-! ## Syntax codec

The module `scientific_pydantic.slice_syntax` is imported by
`slice.py` but its source is not part of the snapshot; the two
functions below are therefore modelled from spec §4.1. -/

/-- One token of the grammar: absent when empty after stripping (an error
when that slot is required), otherwise run through the converter with the
slot name wrapped around failures. -/
def convertToken {α : Type} (conv : List Char → Except String α)
    (slot : String) (required : Bool) (tok : List Char) :
    Except SliceErr (Option α) :=
  if tok.isEmpty then
    if required then .error (.synErr ("slice is missing a required " ++ slot))
    else .ok Option.none
  else
    match conv tok with
    | .ok v => .ok (some v)
    | .error e => .error (.synErr (slot ++ ": " ++ e))

/-- The chunks of the string between colons, each stripped. -/
def trimmedChunks (s : String) : List (List Char) :=
  (splitCols s.data).map trimChars

/-- Modelled from the spec: `parse_slice_syntax` of the absent
`slice_syntax` module (spec §4.1) — split the string on colons (exactly
one or two of them), strip whitespace from each token, treat a token
that is empty after stripping as absent, and convert present tokens. -/
def parseSliceSyntax {α : Type} (conv : List Char → Except String α)
    (requireStart requireStop : Bool) (value : String) :
    Except SliceErr (Option α × Option α × Option α) :=
  match trimmedChunks value with
  | [a, b] => do
    let s ← convertToken conv "start" requireStart a
    let t ← convertToken conv "stop" requireStop b
    return (s, t, Option.none)
  | [a, b, c] => do
    let s ← convertToken conv "start" requireStart a
    let t ← convertToken conv "stop" requireStop b
    let u ← convertToken conv "step" false c
    return (s, t, u)
  | _ => .error (.synErr "a slice must contain 1 or 2 colons")

/-- Character form of one formatted component: absent renders as empty. -/
def fmtOpt : Option Int → List Char
  | some n => intStr n
  | Option.none => []

/-- Modelled from the spec: `format_slice_syntax` of the absent
`slice_syntax` module (spec §4.1) — `start:stop` when the step is absent,
else `start:stop:step`; absent components render as nothing between the
colons; no whitespace is added. -/
def formatSliceSyntax (start stop step : Option Int) : String :=
  match step with
  | Option.none => ⟨fmtOpt start ++ ':' :: fmtOpt stop⟩
  | some k => ⟨fmtOpt start ++ ':' :: (fmtOpt stop ++ ':' :: intStr k)⟩

/-- Modelled from the spec: the uniform integer converter a range-like
caller hands to the codec (`int` on a token). -/
def intConv (tok : List Char) : Except String Int :=
  match parseInt tok with
  | some n => .ok n
  | Option.none => .error "invalid literal for int"

/-! ### Character classes of formatted integers -/

theorem intStr_chars (n : Int) :
    ∀ c ∈ intStr n, isDigitChar c = true ∨ c = '-' := by
  intro c hc
  unfold intStr at hc
  have hnat : ∀ m : Nat, c ∈ natStr m → isDigitChar c = true := by
    intro m hm
    have := natStr_all_digits m
    rw [List.all_eq_true] at this
    exact this c hm
  split at hc
  · rcases List.mem_cons.mp hc with rfl | hmem
    · exact Or.inr rfl
    · exact Or.inl (hnat _ hmem)
  · exact Or.inl (hnat _ hc)

theorem char_lt48_ne {c d : Char} (h : 48 ≤ c.toNat) (hd : d.toNat < 48) :
    c ≠ d := by
  intro hEq
  rw [hEq] at h
  omega

theorem not_space_of_digit {c : Char} (h : isDigitChar c = true) :
    isSpaceChar c = false := by
  have h' : 48 ≤ c.toNat ∧ c.toNat ≤ 57 := by simpa [isDigitChar] using h
  unfold isSpaceChar
  simp [char_lt48_ne h'.1 (show (' ').toNat < 48 by decide),
    char_lt48_ne h'.1 (show ('\t').toNat < 48 by decide),
    char_lt48_ne h'.1 (show ('\n').toNat < 48 by decide),
    char_lt48_ne h'.1 (show ('\r').toNat < 48 by decide),
    char_lt48_ne h'.1 (show ('\x0b').toNat < 48 by decide),
    char_lt48_ne h'.1 (show ('\x0c').toNat < 48 by decide)]

theorem not_colon_of_digit {c : Char} (h : isDigitChar c = true) :
    c ≠ ':' := by
  have h' : 48 ≤ c.toNat ∧ c.toNat ≤ 57 := by simpa [isDigitChar] using h
  intro hEq
  rw [hEq] at h'
  revert h'
  decide

theorem intStr_no_colon (n : Int) : ∀ c ∈ intStr n, c ≠ ':' := by
  intro c hc
  rcases intStr_chars n c hc with hd | rfl
  · exact not_colon_of_digit hd
  · decide

theorem intStr_no_space (n : Int) : ∀ c ∈ intStr n, isSpaceChar c = false := by
  intro c hc
  rcases intStr_chars n c hc with hd | rfl
  · exact not_space_of_digit hd
  · decide

theorem fmtOpt_no_colon (o : Option Int) : ∀ c ∈ fmtOpt o, c ≠ ':' := by
  cases o with
  | none => intro c hc; cases hc
  | some n => exact intStr_no_colon n

theorem fmtOpt_no_space (o : Option Int) :
    ∀ c ∈ fmtOpt o, isSpaceChar c = false := by
  cases o with
  | none => intro c hc; cases hc
  | some n => exact intStr_no_space n

theorem trimChars_fmtOpt (o : Option Int) : trimChars (fmtOpt o) = fmtOpt o :=
  trimChars_eq_self (fmtOpt_no_space o)

theorem intStr_ne_nil (n : Int) : intStr n ≠ [] := by
  unfold intStr
  split
  · simp
  · exact natStr_ne_nil _

/-- Converting a formatted component (with the slot not required)
recovers the component. -/
theorem convertToken_fmtOpt (slot : String) (o : Option Int) :
    convertToken intConv slot false (fmtOpt o) = .ok o := by
  cases o with
  | none => rfl
  | some n =>
    have hne : (fmtOpt (some n)).isEmpty = false := by
      simp [fmtOpt, List.isEmpty_iff, intStr_ne_nil n]
    unfold convertToken
    rw [hne]
    simp only [Bool.false_eq_true, if_false, fmtOpt, intConv, parseInt_intStr]

/-! ### Round trip of the codec -/

theorem splitCols_format2 (a b : Option Int) :
    splitCols (formatSliceSyntax a b Option.none).data = [fmtOpt a, fmtOpt b] := by
  show splitCols (fmtOpt a ++ ':' :: fmtOpt b) = _
  rw [splitCols_append _ (fmtOpt_no_colon a),
    splitCols_no_colon (fmtOpt_no_colon b)]

theorem splitCols_format3 (a b : Option Int) (k : Int) :
    splitCols (formatSliceSyntax a b (some k)).data
      = [fmtOpt a, fmtOpt b, intStr k] := by
  show splitCols (fmtOpt a ++ ':' :: (fmtOpt b ++ ':' :: intStr k)) = _
  rw [splitCols_append _ (fmtOpt_no_colon a),
    splitCols_append _ (fmtOpt_no_colon b),
    splitCols_no_colon (intStr_no_colon k)]

/-- Parsing a formatted plain-numeric triple recovers it componentwise. -/
theorem parse_format_id (a b c : Option Int) :
    parseSliceSyntax intConv false false (formatSliceSyntax a b c)
      = .ok (a, b, c) := by
  cases c with
  | none =>
    simp only [parseSliceSyntax, trimmedChunks, splitCols_format2, List.map_cons,
      List.map_nil, trimChars_fmtOpt, convertToken_fmtOpt]
    rfl
  | some k =>
    have hk : trimChars (intStr k) = intStr k :=
      trimChars_eq_self (intStr_no_space k)
    have hck : convertToken intConv "step" false (intStr k) = .ok (some k) :=
      convertToken_fmtOpt "step" (some k)
    simp only [parseSliceSyntax, trimmedChunks, splitCols_format3, List.map_cons,
      List.map_nil, trimChars_fmtOpt, hk, convertToken_fmtOpt, hck]
    rfl

/-! ### Canonical strings -/

/-- A token that reads back as an integer whose canonical rendering is the
token itself. -/
def isCanonIntTok (t : List Char) : Bool :=
  match parseInt t with
  | some n => intStr n == t
  | Option.none => false

/-- A canonical token: empty (absent) or a canonically rendered integer. -/
def isCanonTok (t : List Char) : Bool := t.isEmpty || isCanonIntTok t

/-- `":".join(tokens)`. -/
def joinCols : List (List Char) → List Char
  | [] => []
  | [t] => t
  | t :: ts => t ++ ':' :: joinCols ts

/-- Whitespace normalization: strip every token, keep the colons. -/
def wsNormalize (s : String) : String := ⟨joinCols (trimmedChunks s)⟩

/-- A string in canonical form: two or three chunks whose stripped tokens
are absent or canonically rendered integers, the step (when the chunk is
there) nonempty. -/
def isCanonicalForm (s : String) : Bool :=
  match trimmedChunks s with
  | [a, b] => isCanonTok a && isCanonTok b
  | [a, b, c] => isCanonTok a && isCanonTok b && !c.isEmpty && isCanonIntTok c
  | _ => false

theorem convert_of_canonIntTok {t : List Char} (slot : String)
    (hne : t.isEmpty = false) (h : isCanonIntTok t = true) :
    ∃ n, convertToken intConv slot false t = .ok (some n) ∧ intStr n = t := by
  unfold isCanonIntTok at h
  rcases hp : parseInt t with _ | n
  · rw [hp] at h; cases h
  · rw [hp] at h
    refine ⟨n, ?_, beq_iff_eq.mp h⟩
    unfold convertToken
    rw [hne]
    simp only [Bool.false_eq_true, if_false, intConv, hp]

theorem convert_of_canonTok {t : List Char} (slot : String)
    (h : isCanonTok t = true) :
    ∃ o, convertToken intConv slot false t = .ok o ∧ fmtOpt o = t := by
  unfold isCanonTok at h
  rcases he : t.isEmpty with _ | _
  · rw [he, Bool.false_or] at h
    obtain ⟨n, hc, hs⟩ := convert_of_canonIntTok slot he h
    exact ⟨some n, hc, hs⟩
  · have : t = [] := List.isEmpty_iff.mp he
    subst this
    exact ⟨Option.none, rfl, rfl⟩

/-- Formatting the parse of a canonical string is whitespace
normalization. -/
theorem format_parse_canonical (s : String) (h : isCanonicalForm s = true) :
    ∃ a b c, parseSliceSyntax intConv false false s = .ok (a, b, c) ∧
      formatSliceSyntax a b c = wsNormalize s := by
  unfold isCanonicalForm at h
  unfold parseSliceSyntax wsNormalize
  rcases hT : trimmedChunks s with _ | ⟨a, _ | ⟨b, _ | ⟨c, _ | _⟩⟩⟩ <;>
    rw [hT] at h <;> try cases h
  · -- two chunks
    simp only [Bool.and_eq_true] at h
    obtain ⟨oa, hca, hfa⟩ := convert_of_canonTok "start" h.1
    obtain ⟨ob, hcb, hfb⟩ := convert_of_canonTok "stop" h.2
    refine ⟨oa, ob, Option.none, ?_, ?_⟩
    · simp only [hca, hcb]
      rfl
    · show String.mk (fmtOpt oa ++ ':' :: fmtOpt ob) = _
      rw [hfa, hfb]
      rfl
  · -- three chunks
    simp only [Bool.and_eq_true] at h
    obtain ⟨⟨⟨ha, hb⟩, hcne⟩, hcc⟩ := h
    obtain ⟨oa, hca, hfa⟩ := convert_of_canonTok "start" ha
    obtain ⟨ob, hcb, hfb⟩ := convert_of_canonTok "stop" hb
    have hcne' : c.isEmpty = false := by
      cases hc : c.isEmpty
      · rfl
      · rw [hc] at hcne; cases hcne
    obtain ⟨n, hcn, hfn⟩ := convert_of_canonIntTok "step" hcne' hcc
    refine ⟨oa, ob, some n, ?_, ?_⟩
    · simp only [hca, hcb, hcn]
      rfl
    · show String.mk (fmtOpt oa ++ ':' :: (fmtOpt ob ++ ':' :: intStr n)) = _
      rw [hfa, hfb, hfn]
      rfl

/-! ## The interval adapter (`slice.py`) -/

/-- A transport-level Python value: `None`, an `int`, a `str`, or an
opaque non-numeric object. -/
inductive PyVal where
  | vnone
  | vint (n : Int)
  | vstr (s : String)
  | vobj (id : Nat)
deriving DecidableEq, Repr

/-- `slice(start, stop, step)` — three independent optional components,
no bounds checking between them. -/
structure PySlice where
  start : PyVal
  stop : PyVal
  step : PyVal
deriving DecidableEq, Repr

/-- `x is None or isinstance(x, numbers.Number)` (strings and opaque
objects are not numbers). -/
def isNoneOrNumber : PyVal → Bool
  | .vnone => true
  | .vint _ => true
  | _ => false

/-- The numeric reading of a component handed to the codec's format. -/
def pyNumOpt : PyVal → Option Int
  | .vint n => some n
  | _ => Option.none

/-- A logical component type handed to the adapter's constructor: the
plain-string sentinel `str`, `int`, or some other coercible type. -/
inductive PyType where
  | str
  | int
  | other (id : Nat)
deriving DecidableEq, Repr

/-- Modelled from the spec: the opaque per-component coercion capability
(`pydantic.TypeAdapter(t).validate_python`).  For `int` it accepts
integers and decimal string tokens; other non-sentinel types are opaque
collaborators, kept as the identity here. -/
def runAdapter : PyType → PyVal → Except String PyVal
  | .int, .vint n => .ok (.vint n)
  | .int, .vstr s =>
    match parseInt s.data with
    | some n => .ok (.vint n)
    | Option.none => .error "invalid integer"
  | .int, _ => .error "expected an integer"
  | .str, v => .ok v
  | .other _, v => .ok v

/-- The configuration `SliceAdapter.__init__` stores: one optional
coercion capability per slot.  A capability is identified by its declared
type — the source's dictionary maps a type `t` to `TypeAdapter(t)`, so
slots requesting the same type share one entry. -/
structure SliceAdapterCfg where
  defaultAdapter : Option PyType
  startAdapter : Option PyType
  stopAdapter : Option PyType
  stepAdapter : Option PyType
deriving DecidableEq, Repr

/-- `SliceAdapter.__init__(default_type, *, start_type, stop_type,
step_type)`: no capability is built for the sentinel `str`; a slot typed
`str` or left `None` falls back to the default-type capability. -/
def mkSliceAdapter (defaultType : PyType)
    (startType stopType stepType : Option PyType) : SliceAdapterCfg :=
  let da := if defaultType = PyType.str then Option.none else some defaultType
  let slot : Option PyType → Option PyType := fun o =>
    match o with
    | some t => if t = PyType.str then da else some t
    | Option.none => da
  ⟨da, slot startType, slot stopType, slot stepType⟩

/-- `IntSliceAdapter = SliceAdapter(int)`. -/
def IntSliceAdapter : SliceAdapterCfg :=
  mkSliceAdapter PyType.int Option.none Option.none Option.none

/-- `SliceAdapter()` — the default configuration, no coercion anywhere. -/
def defaultSliceAdapter : SliceAdapterCfg :=
  mkSliceAdapter PyType.str Option.none Option.none Option.none

/-- The shapes a caller can hand to `_validate`, tagged as the source's
`match` statement classifies them.  A Python `str` also satisfies
`isinstance(value, Sequence)`; `isSeqShape` below records that. -/
inductive PyInput where
  | inSlice (s : PySlice)
  | inMap (m : List (String × PyVal))
  | inStr (s : String)
  | inList (xs : List PyVal)
  | inOther
deriving DecidableEq, Repr

/-- `isinstance(value, Sequence)`: true for lists/tuples and strings. -/
def isSeqShape : PyInput → Bool
  | .inStr _ => true
  | .inList _ => true
  | _ => false

/-- Iterating a Python string yields its characters as length-1
strings. -/
def strAsSeq (s : String) : List PyVal :=
  s.data.map (fun c => .vstr ⟨[c]⟩)

/-- `value.get(key)`: the value under the key, `None` when absent. -/
def mapGet (m : List (String × PyVal)) (k : String) : PyVal :=
  match m.find? (fun kv => kv.1 == k) with
  | some kv => kv.2
  | Option.none => .vnone

/-- `_from_mapping`: any key outside start/stop/step is a hard error;
missing keys default to `None`. -/
def _from_mapping (m : List (String × PyVal)) :
    Except SliceErr (PyVal × PyVal × PyVal) :=
  if m.any (fun kv => !(kv.1 == "start" || kv.1 == "stop" || kv.1 == "step")) then
    .error (.shapeErr "Invalid key for slice, can only accept start/stop/step")
  else
    .ok (mapGet m "start", mapGet m "stop", mapGet m "step")

/-- The identity `str` converter `slice.py` hands to the codec. -/
def strConv (tok : List Char) : Except String PyVal := .ok (.vstr ⟨tok⟩)

/-- An absent raw component is `None`. -/
def optVal : Option PyVal → PyVal
  | some v => v
  | Option.none => .vnone

/-- `_from_str`: delegate to the codec with `converter=str`,
`require_start=False`, `require_stop=True`. -/
def _from_str (value : String) : Except SliceErr (PyVal × PyVal × PyVal) :=
  match parseSliceSyntax strConv false true value with
  | .ok (a, b, c) => .ok (optVal a, optVal b, optVal c)
  | .error e => .error e

/-- `_from_sequence`: `tuple(value)` when the length is 1–3, a shape
error otherwise. -/
def _from_sequence (xs : List PyVal) : Except SliceErr (List PyVal) :=
  if 1 ≤ xs.length ∧ xs.length ≤ 3 then .ok xs
  else .error (.shapeErr "A sequence input to slice must have 1-3 elements")

/-- One slot of the coercion stage of `_validate`: `None` passes through,
as does a slot with no capability; capability failures are tagged with
the slot name. -/
def coerceSlot (adapter : Option PyType) (slot : String) (v : PyVal) :
    Except SliceErr PyVal :=
  match v, adapter with
  | .vnone, _ => .ok .vnone
  | v, Option.none => .ok v
  | v, some t =>
    match runAdapter t v with
    | .ok w => .ok w
    | .error e => .error (.compErr slot e)

/-- The coercion stage of `_validate`, shared by every shape arm. -/
def applyAdapters (cfg : SliceAdapterCfg) (t : PyVal × PyVal × PyVal) :
    Except SliceErr PySlice := do
  let a ← coerceSlot cfg.startAdapter "start" t.1
  let b ← coerceSlot cfg.stopAdapter "stop" t.2.1
  let c ← coerceSlot cfg.stepAdapter "step" t.2.2
  return ⟨a, b, c⟩

/-- `_validate`: shape dispatch, raw-triple extraction, coercion.  An
already-native slice is returned unchanged before anything else runs.
The source unpacks `_from_sequence`'s tuple into exactly three names
(`start, stop, step = _from_sequence(value)`), so a tuple of length 1 or
2 raises at the unpacking (a `ValueError`, `valErr` here). -/
def _validate (cfg : SliceAdapterCfg) : PyInput → Except SliceErr PySlice
  | .inSlice s => .ok s
  | .inMap m => do applyAdapters cfg (← _from_mapping m)
  | .inStr s => do applyAdapters cfg (← _from_str s)
  | .inList xs => do
    let parts ← _from_sequence xs
    match parts with
    | [a, b, c] => applyAdapters cfg (a, b, c)
    | _ => .error (.valErr "not enough values to unpack (expected 3)")
  | .inOther => .error (.shapeErr "Expected a slice, sequence, mapping or str")

/-- The two serialized forms. -/
inductive SerOut where
  | serStr (s : String)
  | serDict (start stop step : PyVal)
deriving DecidableEq, Repr

/-- `_serialize`: the compact canonical string when every component is
`None` or a number, the structured three-field mapping otherwise. -/
def _serialize (v : PySlice) : SerOut :=
  if isNoneOrNumber v.start && isNoneOrNumber v.stop && isNoneOrNumber v.step then
    .serStr (formatSliceSyntax (pyNumOpt v.start) (pyNumOpt v.stop) (pyNumOpt v.step))
  else
    .serDict v.start v.stop v.step

/-! ## Helper lemmas about the adapter -/

/-- The `str` converter never fails: an empty token is absent, a
nonempty one is kept verbatim. -/
theorem convertToken_strConv (slot : String) (t : List Char) :
    convertToken strConv slot false t
      = .ok (if t.isEmpty then Option.none else some (.vstr ⟨t⟩)) := by
  unfold convertToken strConv
  cases h : t.isEmpty <;> simp [h]

/-- A slot with no coercion capability passes every value through. -/
theorem coerceSlot_none (slot : String) (v : PyVal) :
    coerceSlot Option.none slot v = .ok v := by
  cases v <;> rfl

/-- The default configuration coerces nothing. -/
theorem applyAdapters_default (t : PyVal × PyVal × PyVal) :
    applyAdapters defaultSliceAdapter t = .ok ⟨t.1, t.2.1, t.2.2⟩ := by
  show applyAdapters ⟨Option.none, Option.none, Option.none, Option.none⟩ t = _
  unfold applyAdapters
  simp only [coerceSlot_none]
  rfl

/-- A parse failure of the codec propagates out of the string arm of
`_validate` untouched. -/
theorem validate_inStr_error (cfg : SliceAdapterCfg) (s : String)
    (e : SliceErr) (h : parseSliceSyntax strConv false true s = .error e) :
    _validate cfg (.inStr s) = .error e := by
  simp only [_validate, _from_str, h]
  rfl

/-! ## The claims -/

/-- C1: for every interval whose components are each absent or a plain
number, parsing the formatted string (uniform integer converter, no
required slots) yields the same three components; and for every
syntactically valid canonical-form string, formatting the parse
reproduces the string after whitespace normalization. -/
theorem claim_C1_codec_roundtrip :
    (∀ a b c : Option Int,
      parseSliceSyntax intConv false false (formatSliceSyntax a b c)
        = .ok (a, b, c)) ∧
    (∀ s : String, isCanonicalForm s = true →
      ∃ a b c, parseSliceSyntax intConv false false s = .ok (a, b, c) ∧
        formatSliceSyntax a b c = wsNormalize s) :=
  ⟨parse_format_id, format_parse_canonical⟩

/-- C2: with the integer adapter `SliceAdapter(int)`, the string `":5"`,
the mapping `{"stop": 5}` and the native `slice(None, 5, None)` all
validate to the same typed interval — but the sequence `[None, 5]`,
contrary to the claim, fails at the source's tuple unpacking
(`start, stop, step = _from_sequence(value)` with a 2-tuple). -/
theorem claim_C2_shape_equivalence_bug :
    _validate IntSliceAdapter (.inStr ":5")
      = .ok ⟨.vnone, .vint 5, .vnone⟩ ∧
    _validate IntSliceAdapter (.inMap [("stop", .vint 5)])
      = .ok ⟨.vnone, .vint 5, .vnone⟩ ∧
    _validate IntSliceAdapter (.inSlice ⟨.vnone, .vint 5, .vnone⟩)
      = .ok ⟨.vnone, .vint 5, .vnone⟩ ∧
    _validate IntSliceAdapter (.inList [.vnone, .vint 5])
      = .error (.valErr "not enough values to unpack (expected 3)") :=
  ⟨rfl, rfl, rfl, rfl⟩

/-- C3: sequences of length 0 or more than 3 fail with the shape error
and a length-3 sequence maps positionally, as the claim says; but
length-1 and length-2 sequences, which the claim says succeed with
trailing components `None`, fail at the source's tuple unpacking. -/
theorem claim_C3_sequence_unpack_bug :
    _validate defaultSliceAdapter (.inList [.vint 5])
      = .error (.valErr "not enough values to unpack (expected 3)") ∧
    _validate defaultSliceAdapter (.inList [.vint 1, .vint 5])
      = .error (.valErr "not enough values to unpack (expected 3)") ∧
    _validate defaultSliceAdapter (.inList [.vint 1, .vint 5, .vint 2])
      = .ok ⟨.vint 1, .vint 5, .vint 2⟩ ∧
    _validate defaultSliceAdapter (.inList [])
      = .error (.shapeErr "A sequence input to slice must have 1-3 elements") ∧
    _validate defaultSliceAdapter (.inList [.vint 1, .vint 2, .vint 3, .vint 4])
      = .error (.shapeErr "A sequence input to slice must have 1-3 elements") :=
  ⟨rfl, rfl, rfl, rfl, rfl⟩

/-- C4: serialization is a binary choice — the compact canonical string
exactly when all three components are `None` or numbers, the structured
three-field form (keeping all three raw components) otherwise; partial
compaction never occurs. -/
theorem claim_C4_serialize_binary_choice (v : PySlice) :
    (_serialize v
        = .serStr (formatSliceSyntax (pyNumOpt v.start) (pyNumOpt v.stop)
            (pyNumOpt v.step))
      ∨ _serialize v = .serDict v.start v.stop v.step) ∧
    ((∃ s, _serialize v = .serStr s) ↔
      (isNoneOrNumber v.start && isNoneOrNumber v.stop
        && isNoneOrNumber v.step) = true) := by
  unfold _serialize
  split
  · rename_i h
    exact ⟨Or.inl rfl, fun _ => h, fun _ => ⟨_, rfl⟩⟩
  · rename_i h
    refine ⟨Or.inr rfl, ?_, fun hh => absurd hh h⟩
    rintro ⟨s, hs⟩
    cases hs

/-- C8: an input that is already a native slice is returned unchanged by
`_validate` under every configuration; in particular the integer
configuration does not touch string components a coercing path would
have rejected. -/
theorem claim_C8_native_passthrough (cfg : SliceAdapterCfg) (s : PySlice) :
    _validate cfg (.inSlice s) = .ok s ∧
    _validate IntSliceAdapter (.inSlice ⟨.vstr "x", .vstr "y", .vnone⟩)
      = .ok ⟨.vstr "x", .vstr "y", .vnone⟩ :=
  ⟨rfl, rfl⟩

/-- The claim's reading of the constructor: the effective type of a slot
is its override unless the override is absent or the plain-string
sentinel, in which case it is the default type. -/
def effectiveType (defaultType : PyType) (o : Option PyType) : PyType :=
  match o with
  | some t => if t = PyType.str then defaultType else t
  | Option.none => defaultType

/-- The claim's reading of slot capability selection: coercion is
disabled exactly when the effective type is the sentinel. -/
def effectiveAdapter (defaultType : PyType) (o : Option PyType) :
    Option PyType :=
  if effectiveType defaultType o = PyType.str then Option.none
  else some (effectiveType defaultType o)

/-- C10: each slot's capability is the one for its effective type (the
override when it is a non-sentinel type, the default otherwise), so an
explicit `str` override with a non-string default still coerces — e.g.
`SliceAdapter(int, start_type=str)` coerces `start` with `int`. -/
theorem claim_C10_slot_fallback (d : PyType) (s t u : Option PyType) :
    (mkSliceAdapter d s t u).startAdapter = effectiveAdapter d s ∧
    (mkSliceAdapter d s t u).stopAdapter = effectiveAdapter d t ∧
    (mkSliceAdapter d s t u).stepAdapter = effectiveAdapter d u ∧
    (mkSliceAdapter PyType.int (some PyType.str) Option.none
      Option.none).startAdapter = some PyType.int := by
  have key : ∀ o : Option PyType,
      (mkSliceAdapter d o o o).startAdapter = effectiveAdapter d o := by
    intro o
    cases o with
    | none => rfl
    | some x =>
      by_cases hx : x = PyType.str
      · subst hx; rfl
      · simp [mkSliceAdapter, effectiveAdapter, effectiveType, hx]
  exact ⟨key s, key t, key u, rfl⟩

/-- C5: string inputs parse with start optional and stop mandatory —
`":5"` validates (integer adapter) to stop 5 with start and step absent;
`"1::2"` fails with a syntax error; and in general any string whose stop
chunk is empty after stripping fails with a syntax error under every
configuration. -/
theorem claim_C5_mandatory_stop :
    _validate IntSliceAdapter (.inStr ":5")
      = .ok ⟨.vnone, .vint 5, .vnone⟩ ∧
    _validate IntSliceAdapter (.inStr "1::2")
      = .error (.synErr "slice is missing a required stop") ∧
    (∀ (cfg : SliceAdapterCfg) (s : String) (a : List Char)
      (rest : List (List Char)),
      trimmedChunks s = a :: [] :: rest → rest.length ≤ 1 →
      _validate cfg (.inStr s)
        = .error (.synErr "slice is missing a required stop")) := by
  refine ⟨rfl, rfl, ?_⟩
  intro cfg s a rest hT hlen
  apply validate_inStr_error
  unfold parseSliceSyntax
  rw [hT]
  rcases rest with _ | ⟨c, _ | ⟨d, rest2⟩⟩
  · simp only [convertToken_strConv]
    rfl
  · simp only [convertToken_strConv]
    rfl
  · exfalso
    simp only [List.length_cons] at hlen
    omega

/-- C6: a mapping with a key outside start/stop/step fails with the
shape error; a mapping using only those keys validates, missing keys
defaulting to `None`. -/
theorem claim_C6_mapping_keys (m : List (String × PyVal)) :
    (m.any (fun kv => !(kv.1 == "start" || kv.1 == "stop" || kv.1 == "step"))
        = true →
      _validate defaultSliceAdapter (.inMap m)
        = .error
            (.shapeErr "Invalid key for slice, can only accept start/stop/step")) ∧
    (m.any (fun kv => !(kv.1 == "start" || kv.1 == "stop" || kv.1 == "step"))
        = false →
      _validate defaultSliceAdapter (.inMap m)
        = .ok ⟨mapGet m "start", mapGet m "stop", mapGet m "step"⟩) := by
  constructor
  · intro h
    simp only [_validate, _from_mapping, h, if_true]
    rfl
  · intro h
    simp only [_validate, _from_mapping, h, Bool.false_eq_true, if_false]
    show applyAdapters defaultSliceAdapter
        (mapGet m "start", mapGet m "stop", mapGet m "step") = _
    exact applyAdapters_default _

/-- C7: a string with zero colons or with three or more of them fails
with a syntax error under every configuration; `"5"` and `"1:2:3:4"`
both fail. -/
theorem claim_C7_colon_count :
    (∀ (cfg : SliceAdapterCfg) (s : String),
      s.data.count ':' = 0 ∨ 3 ≤ s.data.count ':' →
      _validate cfg (.inStr s)
        = .error (.synErr "a slice must contain 1 or 2 colons")) ∧
    _validate IntSliceAdapter (.inStr "5")
      = .error (.synErr "a slice must contain 1 or 2 colons") ∧
    _validate IntSliceAdapter (.inStr "1:2:3:4")
      = .error (.synErr "a slice must contain 1 or 2 colons") := by
  refine ⟨?_, rfl, rfl⟩
  intro cfg s h
  apply validate_inStr_error
  have hlen : (trimmedChunks s).length = s.data.count ':' + 1 := by
    unfold trimmedChunks
    rw [List.length_map, splitCols_length]
  unfold parseSliceSyntax
  rcases hT : trimmedChunks s with _ | ⟨a, _ | ⟨b, _ | ⟨c, _ | ⟨d, rest⟩⟩⟩⟩ <;>
    rw [hT] at hlen <;>
    simp only [List.length_cons, List.length_nil] at hlen <;>
    first
      | rfl
      | (exfalso; rcases h with h | h <;> omega)

/-- C9: a string input satisfies the sequence shape test (and a string
of length 1–3 passes the sequence length check), yet `_validate` routes
every string through the grammar parser and never through positional
character mapping: dispatch tries the string arm before the sequence
arm. -/
theorem claim_C9_str_dispatch (cfg : SliceAdapterCfg) (s : String) :
    isSeqShape (.inStr s) = true ∧
    (1 ≤ s.length → s.length ≤ 3 →
      _from_sequence (strAsSeq s) = .ok (strAsSeq s)) ∧
    _validate cfg (.inStr s) = (do applyAdapters cfg (← _from_str s)) ∧
    _validate defaultSliceAdapter (.inStr "1:2")
      ≠ _validate defaultSliceAdapter (.inList (strAsSeq "1:2")) := by
  refine ⟨rfl, ?_, rfl, ?_⟩
  · intro h1 h3
    have hlen : (strAsSeq s).length = s.length := by
      unfold strAsSeq
      rw [List.length_map]
      rfl
    unfold _from_sequence
    rw [if_pos (show 1 ≤ (strAsSeq s).length ∧ (strAsSeq s).length ≤ 3 by
      rw [hlen]; exact ⟨h1, h3⟩)]
  · intro hEq
    have hL : _validate defaultSliceAdapter (.inStr "1:2")
        = .ok ⟨.vstr "1", .vstr "2", .vnone⟩ := rfl
    have hR : _validate defaultSliceAdapter (.inList (strAsSeq "1:2"))
        = .ok ⟨.vstr "1", .vstr ":", .vstr "2"⟩ := rfl
    rw [hL, hR] at hEq
    simp at hEq

end ScientificPydantic
